import Mathlib

/-!
Verification of the BlenderFDS parameter codec (`src/types/fds_param.py`)
and the scene import fallback (`src/lang/scene/scene.py`).

The Python code is shallowly embedded: Python values handled by the codec
become the closed inductive `PyVal` (Python floats are modelled as exact
rationals; the binary-float rounding of CPython is abstracted to exact
decimal rounding, and the tie-breaking direction of `round` is immaterial
to every statement below), strings become `List Char`, fallible code
returns `Except`.  The regular-expression scans of the source are embedded
as explicit character-level state machines with the same matching
semantics, documented at each definition.
-/

set_option maxRecDepth 10000

namespace BFDS

/-- The single-quote character, written by code point to keep source text plain. -/
def sq : Char := Char.ofNat 39

/-- The double-quote character, written by code point. -/
def dq : Char := Char.ofNat 34

/-- Closed type of the Python values the codec handles: bool, int, float
(modelled as an exact rational), str (modelled as a character list).  The
`case _` branch of `_get_formatted_values` is unreachable over this closed
type and is noted where relevant. -/
inductive PyVal where
  | pbool (b : Bool)
  | pint (n : Int)
  | pfloat (q : ℚ)
  | pstr (s : List Char)
deriving DecidableEq, Repr

/-- Kind tag of a value, used to state the homogeneity of a batch. -/
def PyVal.kind : PyVal → Nat
  | .pbool _ => 0
  | .pint _ => 1
  | .pfloat _ => 2
  | .pstr _ => 3

/-- True exactly on float values (Python `isinstance(v, float)`). -/
def PyVal.isFloat : PyVal → Bool
  | .pfloat _ => true
  | _ => false

/-- Python truthiness of a value, used by `v and "T" or "F"`. -/
def pyTruthy : PyVal → Bool
  | .pbool b => b
  | .pint n => n ≠ 0
  | .pfloat q => q ≠ 0
  | .pstr s => s ≠ []

/-! ### Decimal digit machinery

Python renders integers with `str` and fixed/exponential floats with
format specifiers; both are embedded through an explicit base-10 digit
codec.  Digit lists are little-endian (`digitsRevVal`) internally and
reversed for display. -/

/-- Character for a single decimal digit. -/
def digitChar (d : Nat) : Char := Char.ofNat (48 + d)

/-- Decimal digit test on characters (the regex class `[0-9]`). -/
def isDigitChar (c : Char) : Bool := 48 ≤ c.toNat && c.toNat ≤ 57

/-- Numeric value of a digit character. -/
def charDigit (c : Char) : Nat := c.toNat - 48

/-- Little-endian base-10 digits of `n`, with explicit fuel so that the
definition is structural and kernel-reducible; fuel `n` always suffices. -/
def natDigitsRevF : Nat → Nat → List Nat
  | 0, _ => []
  | fuel + 1, n => if n = 0 then [] else n % 10 :: natDigitsRevF fuel (n / 10)

/-- Little-endian base-10 digits of `n` (empty for `0`). -/
def natDigitsRev (n : Nat) : List Nat := natDigitsRevF n n

/-- Value of a little-endian digit list. -/
def digitsRevVal : List Nat → Nat
  | [] => 0
  | d :: ds => d + 10 * digitsRevVal ds

/-- Most-significant-first value of a digit list, as consumed by a reader. -/
def digitsVal (l : List Nat) : Nat := digitsRevVal l.reverse

/-- Fixed-width little-endian digits of `m` padded with zeros to length `p`. -/
def padDigitsRev (p m : Nat) : List Nat :=
  natDigitsRev m ++ List.replicate (p - (natDigitsRev m).length) 0

/-- Most-significant-first digit characters of `n`, rendering `0` as `"0"`
(the behaviour of Python `str` on a natural number). -/
def natChars (n : Nat) : List Char :=
  if n = 0 then [digitChar 0] else ((natDigitsRev n).reverse).map digitChar

/-- Digit characters of the fractional part, zero-padded to exactly `p` places. -/
def fracChars (p m : Nat) : List Char :=
  ((padDigitsRev p m).reverse).map digitChar

/-! ### Value formatting

Embedding of `FDSParam._get_formatted_values` (fds_param.py lines 61-83).
CPython's `round(v, p)` followed by `f"{...:.{p}f}"` double-rounds the
binary double; over the exact-rational model this collapses to a single
rounding of `q * 10 ^ p` to the nearest integer (`Mathlib.round`, whose
half-way tie direction differs from CPython's round-half-even only on
exact decimal ties, immaterial to every theorem below). -/

/-- Fixed-point rendering `f"{round(v,self.precision):.{self.precision}f}"`.
With precision `0` Python prints no decimal point. -/
def fixChars (p : Nat) (q : ℚ) : List Char :=
  let n : Int := round (q * 10 ^ p)
  let m := n.natAbs
  (if n < 0 then ['-'] else []) ++ natChars (m / 10 ^ p) ++
    (if p = 0 then [] else '.' :: fracChars p (m % 10 ^ p))

/-- Decimal exponent and `p+1`-digit mantissa for `f"{v:.{p}E}"`: the
exponent is the `Int.log` of `|q|`, the mantissa is `|q|` scaled to `p+1`
digits and rounded; a rounding carry up to `10^(p+1)` renormalizes. -/
def expParts (p : Nat) (q : ℚ) : Int × Nat :=
  if q = 0 then (0, 0)
  else
    let e : Int := Int.log 10 |q|
    let n : Int := round (|q| * (10 : ℚ) ^ ((p : Int) - e))
    if n = 10 ^ (p + 1) then (e + 1, 10 ^ p) else (e, n.toNat)

/-- Exponent field of Python `%E` output: an explicit sign then at least
two digits. -/
def expSignChars (e : Int) : List Char :=
  (if e < 0 then ['-'] else ['+']) ++
    (if e.natAbs < 10 then digitChar 0 :: natChars e.natAbs else natChars e.natAbs)

/-- Scientific rendering `f"{v:.{self.precision}E}"`. -/
def expChars (p : Nat) (q : ℚ) : List Char :=
  let pr := expParts p q
  (if q < 0 then ['-'] else []) ++ natChars (pr.2 / 10 ^ p) ++
    (if p = 0 then [] else '.' :: fracChars p (pr.2 % 10 ^ p)) ++
    'E' :: expSignChars pr.1

/-- String token quoting: single-quoted, or double-quoted when the value
contains a single quote (`"'" in v and f'"{v}"' or f"'{v}'"`). -/
def quoteChars (s : List Char) : List Char :=
  if sq ∈ s then dq :: (s ++ [dq]) else sq :: (s ++ [sq])

/-- Python `str` of an int: optional minus sign then decimal digits. -/
def intPyChars (n : Int) : List Char :=
  (if n < 0 then ['-'] else []) ++ natChars n.natAbs

/-- Python `str()` of a value, used by the int-headed branch on every
element.  For floats CPython prints the shortest round-tripping decimal;
the rational model approximates it by 6-digit fixed rendering — this arm
is reachable only from heterogeneous batches, which every claim excludes. -/
def pyStr : PyVal → List Char
  | .pbool true => ['T', 'r', 'u', 'e']
  | .pbool false => ['F', 'a', 'l', 's', 'e']
  | .pint n => intPyChars n
  | .pfloat q => fixChars 6 q
  | .pstr s => s

/-- Numeric content of a value as used by Python float formatting
(`bool` and `int` format like their numeric value; a `str` operand makes
`round`/`format` raise). -/
def PyVal.toRat : PyVal → Option ℚ
  | .pbool b => some (if b then 1 else 0)
  | .pint n => some (n : ℚ)
  | .pfloat q => some q
  | .pstr _ => none

/-- Error raised while formatting: a string element inside a float-headed
batch (Python `TypeError`/`ValueError`).  The `case _` unknown-type branch
of the source is unreachable over the closed `PyVal`. -/
inductive CodecErr where
  | fmt
deriving DecidableEq, Repr

/-- Decidable equality of `Except` results, so witnesses evaluate by
`decide`. -/
instance instDecEqExcept {ε α : Type} [DecidableEq ε] [DecidableEq α] :
    DecidableEq (Except ε α) := fun x y =>
  match x, y with
  | .ok a, .ok b =>
    if h : a = b then .isTrue (by rw [h]) else .isFalse fun hh => h (Except.ok.inj hh)
  | .error e, .error f =>
    if h : e = f then .isTrue (by rw [h]) else .isFalse fun hh => h (Except.error.inj hh)
  | .ok _, .error _ => .isFalse fun hh => Except.noConfusion hh
  | .error _, .ok _ => .isFalse fun hh => Except.noConfusion hh

/-- Float-branch element formatter: `round`/format raise on a string
operand, every numeric operand formats through its rational value. -/
def fmtFloatElem (precision : Nat) (exponential : Bool) (v : PyVal) :
    Except CodecErr (List Char) :=
  match v.toRat with
  | some q => .ok (if exponential then expChars precision q else fixChars precision q)
  | none => .error .fmt

/-- String-branch element formatter: `"'" in v` raises on a non-string
operand. -/
def fmtStrElem : PyVal → Except CodecErr (List Char)
  | .pstr s => .ok (quoteChars s)
  | _ => .error .fmt

/-- Eager element-wise formatting, the evaluation of `tuple(... for v in
values)`: stops at the first raising element. -/
def mapExcept (f : PyVal → Except CodecErr (List Char)) :
    List PyVal → Except CodecErr (List (List Char))
  | [] => .ok []
  | v :: vs =>
    match f v with
    | .ok t =>
      match mapExcept f vs with
      | .ok ts => .ok (t :: ts)
      | .error e => .error e
    | .error e => .error e

/-- Embedding of `FDSParam._get_formatted_values`: dispatch on the first
value's runtime type (float, str, bool, int — bool tested before int as in
the source) and format every element with that branch's formatter. -/
def getFormattedValues (precision : Nat) (exponential : Bool) (values : List PyVal) :
    Except CodecErr (List (List Char)) :=
  match values with
  | [] => .ok []
  | v0 :: _ =>
    match v0 with
    | .pfloat _ => mapExcept (fmtFloatElem precision exponential) values
    | .pstr _ => mapExcept fmtStrElem values
    | .pbool _ => .ok (values.map fun v => if pyTruthy v then ['T'] else ['F'])
    | .pint _ => .ok (values.map pyStr)

/-! ### The FDSParam datastructure -/

/-- State of an `FDSParam` (fds_param.py lines 16-44): label, value list
(`self._values`), float precision, exponential flag, comment messages.
Python string fields are `List Char`; a comment entry may be `None`.
`precision` is a `Nat`: the source's default is 3 and `from_fds` always
recomputes a non-negative value (see `from_fds` below). -/
structure FDSParam where
  fds_label : Option (List Char)
  values : List PyVal
  precision : Nat
  exponential : Bool
  msgs : List (Option (List Char))
deriving DecidableEq, Repr

/-- Argument shape accepted by `set_value`: `None`, a scalar
(`int()|float()|str()`, which also captures `bool` since Python `bool`
is an `int`), or an iterable. -/
inductive SetArg where
  | noneArg
  | scalar (v : PyVal)
  | listArg (l : List PyVal)
deriving DecidableEq, Repr

/-- Embedding of `set_value`: the value list stored in `self._values`. -/
def setValueList : SetArg → List PyVal
  | .noneArg => []
  | .scalar v => [v]
  | .listArg l => l

/-- Embedding of the class constructor.  Note the source first copies
`msgs` when truthy (an empty list is falsy and gives a fresh list), then
unconditionally appends `msg` — even when `msg` is `None`. -/
def mkFDSParam (fds_label : Option (List Char)) (value : SetArg) (precision : Nat)
    (exponential : Bool) (msg : Option (List Char))
    (msgs : Option (List (Option (List Char)))) : FDSParam :=
  { fds_label := fds_label
    values := setValueList value
    precision := precision
    exponential := exponential
    msgs := (match msgs with
             | some l => if l = [] then [] else l
             | none => []) ++ [msg] }

/-- Embedding of `FDSParam.copy` (lines 52-59): rebuild through the
constructor from slices of the value and message lists.  Python list
identity (aliasing) has no counterpart over immutable Lean lists; the
content of each field is what is modelled. -/
def FDSParam.copy (p : FDSParam) : FDSParam :=
  mkFDSParam p.fds_label (.listArg p.values) p.precision p.exponential
    Option.none (some p.msgs)

/-- Embedding of `get_values` (the Blender context argument is unused). -/
def FDSParam.get_values (p : FDSParam) : List PyVal := p.values

/-- Comma join of formatted tokens, `",".join(...)`. -/
def joinComma : List (List Char) → List Char
  | [] => []
  | [t] => t
  | t :: ts => t ++ ',' :: joinComma ts

/-- Embedding of `FDSParam.to_fds` (lines 115-126): `LABEL=v1,v2,...` when
label and values are both truthy, the bare label when only the label is
truthy, and the implicit Python `None` (here `Option.none`) otherwise —
including when the label is absent but values are present, since the
source only returns inside `if self.fds_label:`. -/
def FDSParam.to_fds (p : FDSParam) : Except CodecErr (Option (List Char)) := do
  let ts ← getFormattedValues p.precision p.exponential p.values
  let v := joinComma ts
  match p.fds_label with
  | some l =>
    if l = [] then pure Option.none
    else if v = [] then pure (some l)
    else pure (some (l ++ '=' :: v))
  | none => pure Option.none

/-! ### Parsing: preprocessing, token scan, literal evaluation

Embedding of `FDSParam.from_fds` (fds_param.py lines 142-173) and the
regular expressions it uses.  Each `re.findall` is embedded as an explicit
character scan with the same leftmost, non-overlapping matching semantics,
argued case by case in the doc comments. -/

/-- Python whitespace as stripped by `str.strip()` and matched by `\s`
(space, TAB, LF, CR, VT, FF). -/
def isPySpace (c : Char) : Bool :=
  c = ' ' || c = Char.ofNat 9 || c = '\n' || c = Char.ofNat 13 ||
    c = Char.ofNat 11 || c = Char.ofNat 12

/-- Characters on which the value scanner never starts a token: the
comma and whitespace (`[^,\s\t]` complement). -/
def isSep (c : Char) : Bool := c = ',' || isPySpace c

/-- Embedding of `str.strip()`. -/
def pyStrip (l : List Char) : List Char :=
  ((l.dropWhile isPySpace).reverse.dropWhile isPySpace).reverse

/-- Line-break characters of `str.splitlines` that the model covers
(LF, CR — with CRLF as one break — VT, FF; the rare FS/GS/RS/NEL/LS/PS
breaks are outside the model). -/
def isLineBreak (c : Char) : Bool :=
  c = '\n' || c = Char.ofNat 13 || c = Char.ofNat 11 || c = Char.ofNat 12

/-- Worker for `splitlines`: accumulates the current line reversed. -/
def pySplitlinesAux : List Char → List Char → List (List Char)
  | cur, [] => [cur.reverse]
  | cur, c :: cs =>
    if c = Char.ofNat 13 then
      match cs with
      | [] => [cur.reverse]
      | d :: cs2 =>
        if d = '\n' then
          cur.reverse :: (if cs2 = [] then [] else pySplitlinesAux [] cs2)
        else
          cur.reverse :: pySplitlinesAux [] (d :: cs2)
    else if isLineBreak c then
      cur.reverse :: (if cs = [] then [] else pySplitlinesAux [] cs)
    else
      pySplitlinesAux (c :: cur) cs

/-- Embedding of `str.splitlines` (no trailing empty line, empty input
gives no lines). -/
def pySplitlines (l : List Char) : List (List Char) :=
  if l = [] then [] else pySplitlinesAux [] l

/-- Space join, `" ".join(...)`. -/
def joinSpace : List (List Char) → List Char
  | [] => []
  | [t] => t
  | t :: ts => t ++ ' ' :: joinSpace ts

/-- Embedding of `" ".join(f90.strip().splitlines())` (line 148). -/
def preprocess (l : List Char) : List Char := joinSpace (pySplitlines (pyStrip l))

/-- First-occurrence split: `some (body, rest)` when the character occurs,
with `l = body ++ qc :: rest` and `qc ∉ body`. -/
def splitAtChar (qc : Char) : List Char → Option (List Char × List Char)
  | [] => none
  | c :: cs =>
    if c = qc then some ([], cs)
    else
      match splitAtChar qc cs with
      | some (b, r) => some (c :: b, r)
      | none => none

/-- Embedding of `re.findall` with `_RE_SCAN_VALUES`, the pattern
`'.*?'|".*?"|[^,\s\t]+` under DOTALL: scanning left to right, separators
are skipped; a quote character with a later matching quote takes the
shortest quoted span including its quotes (the first two alternatives,
each of which only matches a span delimited by its own quote kind);
any other character — including an unmatched quote, for which both quoted
alternatives fail — starts a maximal run of non-separator characters.
Structural fuel makes the definition kernel-reducible; fuel `l.length`
always suffices. -/
def scanValuesF : Nat → List Char → List (List Char)
  | 0, _ => []
  | _ + 1, [] => []
  | fuel + 1, c :: cs =>
    if isSep c then scanValuesF fuel cs
    else if c = sq ∨ c = dq then
      match splitAtChar c cs with
      | some (b, r) => (c :: (b ++ [c])) :: scanValuesF fuel r
      | none =>
        (c :: cs.takeWhile (fun d => !isSep d)) ::
          scanValuesF fuel (cs.dropWhile (fun d => !isSep d))
    else
      (c :: cs.takeWhile (fun d => !isSep d)) ::
        scanValuesF fuel (cs.dropWhile (fun d => !isSep d))

/-- The value scanner at its canonical fuel. -/
def scanValues (l : List Char) : List (List Char) := scanValuesF l.length l

/-- Numeric value of a most-significant-first digit character run. -/
def charsVal (l : List Char) : Nat := digitsVal (l.map charDigit)

/-- Leading sign of a numeric literal: strip one `-` or `+`. -/
def signSplit (l : List Char) : Int × List Char :=
  match l with
  | c :: cs => if c = '-' then (-1, cs) else if c = '+' then (1, cs) else (1, l)
  | [] => (1, [])

/-- Rational value of a parsed float literal: sign, integer digits,
fraction digits, exponent. -/
def mkFloatVal (sgn : Int) (di df : List Char) (ex : Int) : ℚ :=
  (sgn : ℚ) * ((charsVal di : ℚ) + (charsVal df : ℚ) / 10 ^ df.length) * (10 : ℚ) ^ ex

/-- Exponent field of a literal: optional sign then at least one digit,
nothing after. -/
def parseExpPart (r : List Char) : Option Int :=
  let es := signSplit r
  let ed := es.2.takeWhile isDigitChar
  if ed = [] ∨ es.2.dropWhile isDigitChar ≠ [] then none
  else some (es.1 * (charsVal ed : Int))

/-- Model of Python numeric literal evaluation over the decimal grammar:
optional sign, integer digits, optional `.`-fraction, optional `e`/`E`
exponent with its own optional sign.  An integer literal with a leading
zero and a later nonzero digit (`01`) is a `SyntaxError` in Python 3 and
is rejected, while an all-zero literal (`0`, `00`) is the valid zero per
the `"0" (["_"] "0")*` production; float literals allow leading zeros.  A
literal is a float exactly when it has a decimal point or an exponent.
Hex, octal, binary and underscore-grouped literals are outside the
modeled token class (see `modeledToken`): their characters do not occur
in `numericShape` tokens. -/
def parseNumLit (l : List Char) : Option PyVal :=
  let ss := signSplit l
  let sgn := ss.1
  let l1 := ss.2
  let d1 := l1.takeWhile isDigitChar
  let r1 := l1.dropWhile isDigitChar
  match r1 with
  | [] =>
    if d1 = [] then none
    else if d1.headI = digitChar 0 ∧ ¬ (∀ c ∈ d1, c = digitChar 0) then none
    else some (.pint (sgn * (charsVal d1 : Int)))
  | c :: r2 =>
    if c = '.' then
      let d2 := r2.takeWhile isDigitChar
      let r3 := r2.dropWhile isDigitChar
      match r3 with
      | [] =>
        if d1 = [] ∧ d2 = [] then none
        else some (.pfloat (mkFloatVal sgn d1 d2 0))
      | c2 :: r4 =>
        if c2 = 'e' ∨ c2 = 'E' then
          match parseExpPart r4 with
          | some ex =>
            if d1 = [] ∧ d2 = [] then none
            else some (.pfloat (mkFloatVal sgn d1 d2 ex))
          | none => none
        else none
    else if c = 'e' ∨ c = 'E' then
      if d1 = [] then none
      else
        match parseExpPart r2 with
        | some ex => some (.pfloat (mkFloatVal sgn d1 [] ex))
        | none => none
    else none

/-- Model of Python `eval` on the modeled token class (`modeledToken`
below): a terminated quoted token whose body holds no backslash and no
raw line break is a single string literal without escape sequences and
evaluates to its verbatim body; an unterminated quoted token is a
`SyntaxError`; a `numericShape` token evaluates via `parseNumLit`, whose
failures are exactly the shapes on which Python `eval` raises (see
`numericShape`).  On tokens outside that class — escape sequences,
implicit literal concatenation, hex/octal/binary or underscore-grouped
literals, names such as `abs`, operator expressions — this function is
not a model of `eval`, and no theorem quantifies over them. -/
def pyEval (l : List Char) : Option PyVal :=
  match l with
  | [] => none
  | c :: cs =>
    if c = sq ∨ c = dq then
      match splitAtChar c cs with
      | some (b, r) => if r = [] then some (.pstr b) else none
      | none => none
    else parseNumLit l

/-- One iteration of the eval loop (lines 151-161): the two boolean token
pairs are matched before `eval` is attempted. -/
def evalToken (t : List Char) : Option PyVal :=
  if t = ['.', 'T', 'R', 'U', 'E', '.'] ∨ t = ['T'] then some (.pbool true)
  else if t = ['.', 'F', 'A', 'L', 'S', 'E', '.'] ∨ t = ['F'] then some (.pbool false)
  else pyEval t

/-- Characters of the numeric token alphabet: digits, the decimal dot and
the exponent markers. -/
def numTokChars (c : Char) : Bool :=
  isDigitChar c || decide (c = '.') || decide (c = 'e') || decide (c = 'E')

/-- Tail scan for `numericShape`: every character is in the numeric
alphabet, except that a sign may stand immediately after an exponent
marker (as in `1.50E+01`). -/
def numRunOk : Char → List Char → Bool
  | _, [] => true
  | p, c :: cs =>
    (numTokChars c ||
      ((decide (c = '+') || decide (c = '-')) &&
        (decide (p = 'e') || decide (p = 'E')))) &&
      numRunOk c cs

/-- Numeric-shaped tokens: an optional leading sign, then characters of
the numeric alphabet with interior signs only directly after an exponent
marker.  On this shape CPython `eval` is clear-cut: a well-formed decimal
literal evaluates to its number, and every other such token makes `eval`
raise — a tokenizer `SyntaxError` (`1.2.3`, `5E`, `1E5.`, a bare sign), a
`NameError` for the identifiers over `e`/`E` and digits (`e5`, `EE`),
which name no builtin, an `AttributeError` for float attribute accesses
like `5..e5` (floats have no attribute over this alphabet), or a
`TypeError` for a sign applied to `...` — except the sole Ellipsis
literal `...` itself, which `modeledToken` excludes. -/
def numericShape : List Char → Bool
  | [] => false
  | c :: cs =>
    if decide (c = '-') || decide (c = '+') then
      (match cs with
       | [] => true
       | d :: ds => numTokChars d && numRunOk d ds)
    else numTokChars c && numRunOk c cs

/-- The token class on which the embedded eval loop is faithful to the
program, argued case by case:
* the four boolean tokens are matched before `eval` ever runs
  (fds_param.py lines 151-155);
* a terminated quoted token `q·body·q` whose body holds no interior `q`,
  no backslash and no raw line break is a single Python string literal
  with no escape sequences, and `eval` returns its body verbatim; an
  unterminated quoted token (no closing quote at all) is a `SyntaxError`
  whatever its body;
* a numeric-shaped token other than `...` either is a well-formed decimal
  literal, evaluating to its number, or makes `eval` raise (see
  `numericShape`).
Tokens outside this class (escape sequences, implicit string
concatenation, hex/octal/binary and underscore-grouped literals, names
such as `abs`, operator expressions) are not modeled, and every theorem
about token evaluation restricts to the class. -/
def modeledToken (t : List Char) : Bool :=
  decide (t = ['.', 'T', 'R', 'U', 'E', '.']) || decide (t = ['T']) ||
  decide (t = ['.', 'F', 'A', 'L', 'S', 'E', '.']) || decide (t = ['F']) ||
  (match t with
   | [] => false
   | c :: cs =>
     if decide (c = sq) || decide (c = dq) then
       match splitAtChar c cs with
       | some (b, r) =>
         decide (r = []) &&
           b.all fun x => decide (x ≠ '\x5c') && !isLineBreak x
       | none => true
     else numericShape (c :: cs) && decide (t ≠ ['.', '.', '.']))

/-- Errors observable from `from_fds`: the `BFException` raised on a
failed token, or the uncaught `IndexError` from `values[0]` when the scan
found no token at all. -/
inductive ParseErr where
  | bf (msg : List Char)
  | indexError
deriving DecidableEq, Repr

/-- Label text as interpolated into the error message (`None` when the
label is absent, as Python prints it). -/
def labelChars : Option (List Char) → List Char
  | some l => l
  | none => ['N', 'o', 'n', 'e']

/-- The BFException message of line 160; the interpreter-specific
`<{err}>` tail is rendered as a fixed placeholder. -/
def errMsg (v : List Char) (lbl : Option (List Char)) (f90c : List Char) : List Char :=
  "Error parsing value <".data ++ v ++ "> in <".data ++ labelChars lbl ++
    '=' :: (f90c ++ ">:".data) ++ '\n' :: "<err>".data

/-- The eval loop over all scanned tokens; raises at the first failure. -/
def evalValues (lbl : Option (List Char)) (f90c : List Char) :
    List (List Char) → Except ParseErr (List PyVal)
  | [] => .ok []
  | t :: ts =>
    match evalToken t with
    | some v =>
      match evalValues lbl f90c ts with
      | .ok vs => .ok (v :: vs)
      | .error e => .error e
    | none => .error (.bf (errMsg t lbl f90c))

/-- State machine for `re.findall(r"\.([0-9]+)", f90c)`: `none` outside any
candidate run, `some 0` immediately after a dot, `some k` inside a
`k`-digit run following a dot.  A finished non-empty run is emitted when
the run is interrupted or the input ends, exactly the leftmost
non-overlapping matches of the regex. -/
def decRunsAux : Option Nat → List Char → List Nat
  | st, [] => (match st with | some (k + 1) => [k + 1] | _ => [])
  | st, c :: cs =>
    if isDigitChar c then
      match st with
      | some k => decRunsAux (some (k + 1)) cs
      | none => decRunsAux none cs
    else
      (match st with | some (k + 1) => [k + 1] | _ => []) ++
        decRunsAux (if c = '.' then some 0 else none) cs

/-- Capture lengths of `re.findall(r"\.([0-9]+)", f90c)` in order. -/
def decRuns (l : List Char) : List Nat := decRunsAux none l

/-- State of the scan for `([0-9]*)\.?[0-9]*[eE]`: `cur` is the current
trailing digit-run length, `dotted` records whether that run is
immediately preceded by a dot, and `prev` the digit-run length immediately
before that dot. -/
structure ECapState where
  prev : Nat
  dotted : Bool
  cur : Nat
deriving DecidableEq, Repr

/-- State machine for `re.findall(self._RE_INTEGER, f90c)`: every match of
`([0-9]*)\.?[0-9]*[eE]` ends at an `e`/`E` (the pattern body cannot span
one), so the findall captures are, for each `e`/`E` in order, the group-1
digits read backwards from it: the run before the immediately preceding
dot when there is one, else the immediately preceding run itself (possibly
empty — empty captures are recorded, as `re.findall` does). -/
def eCapsAux : ECapState → List Char → List Nat
  | _, [] => []
  | st, c :: cs =>
    if isDigitChar c then eCapsAux { st with cur := st.cur + 1 } cs
    else if c = '.' then eCapsAux ⟨st.cur, true, 0⟩ cs
    else if c = 'e' ∨ c = 'E' then
      (if st.dotted then st.prev else st.cur) :: eCapsAux ⟨0, false, 0⟩ cs
    else eCapsAux ⟨0, false, 0⟩ cs

/-- Capture lengths of the exponent scan in order. -/
def eCaps (l : List Char) : List Nat := eCapsAux ⟨0, false, 0⟩ l

/-- Python `max` over a scan result (only used on non-empty lists,
mirroring the `match and max(...) or default` idiom). -/
def maxList : List Nat → Nat
  | [] => 0
  | x :: xs => max x (maxList xs)

/-- Embedding of `FDSParam.from_fds` (lines 142-173): preprocess, scan,
eval every token (BFException on the first failure), then — only when the
first value is a float — recompute the precision from the decimal scan
(defaulting to 1 when it finds no match) and, when the exponent scan finds
a match, set the exponential flag and add `max capture length - 1` to the
precision (the sum stays non-negative since the base is at least 1, so Nat
subtraction is exact).  An empty scan reaches `values[0]` and raises
IndexError.  Label and messages are untouched. -/
def FDSParam.from_fds (p : FDSParam) (f90 : List Char) : Except ParseErr FDSParam :=
  let f90c := preprocess f90
  let toks := scanValues f90c
  match evalValues p.fds_label f90c toks with
  | .error e => .error e
  | .ok vals =>
    match vals with
    | [] => .error .indexError
    | v0 :: _ =>
      if v0.isFloat then
        let dec := decRuns f90c
        let base := if dec = [] then 1 else maxList dec
        let caps := eCaps f90c
        if caps = [] then
          .ok { p with values := vals, precision := base }
        else
          .ok { p with values := vals, precision := base + maxList caps - 1,
                       exponential := true }
      else
        .ok { p with values := vals }

/-! ### The scene importer (`src/lang/scene/scene.py`) -/

/-- Blender datatype a namelist handler targets (its `bpy_type`). -/
inductive BpyType where
  | object
  | scene
  | material
  | other
deriving DecidableEq, Repr

/-- Handler class as seen by `_import_fds_namelist`; only the target type
drives the control flow. -/
structure BFNamelistCls where
  bpy_type : BpyType
deriving DecidableEq, Repr

/-- Outcome of a collaborator `from_fds` attempt: success, the
`BFNotImported` signal, or another exception that propagates. -/
inductive Attempt where
  | imported
  | notImported
  | failed (msg : List Char)
deriving DecidableEq, Repr

/-- Modelled from the spec: the `FDSNamelist` class of the types package
is not under `src/`; per spec §4.3 it is a label with an ordered parameter
list. -/
structure FDSNamelist where
  fds_label : List Char
  params : List FDSParam
deriving DecidableEq, Repr

/-- Modelled from the spec: `FDSNamelist.to_fds` is not under `src/`; per
spec §4.3 a namelist renders as `&LABEL param1 param2 ... /` with
space-joined parameter renderings, blank parameters skipped, and a
namelist with no parameters rendering as `&LABEL /`. -/
def FDSNamelist.to_fds (nl : FDSNamelist) : List Char :=
  joinSpace (('&' :: nl.fds_label) ::
    (nl.params.filterMap fun p =>
      match p.to_fds with
      | .ok (some s) => some s
      | _ => none) ++ [['/']])

/-- Embedding of `_import_fds_namelist` (scene.py lines 16-54),
parameterized by the collaborator lookup (`BFNamelist.get_subclass`) and
by the outcome of the corresponding `from_fds` attempt; the Blender-side
object/material bookkeeping has no effect on the free-text channel and is
abstracted away.  The free-text channel is the list of written strings;
the result is an error for a propagating exception (the unhandled-type
`AssertionError` or a collaborator `BFException`). -/
def importFdsNamelist (lookup : List Char → Option BFNamelistCls)
    (attempt : BpyType → Attempt) (freeText : List (List Char))
    (nl : FDSNamelist) : Except (List Char) (List (List Char)) :=
  let fallback := freeText ++ [nl.to_fds ++ ['\n']]
  match lookup nl.fds_label with
  | some cls =>
    match cls.bpy_type with
    | .object | .scene | .material =>
      match attempt cls.bpy_type with
      | .imported => .ok freeText
      | .notImported => .ok fallback
      | .failed m => .error m
    | .other => .error "Unhandled bf_namelist".data
  | none => .ok fallback

/-! ### Concrete fixtures used by witnesses and counterexamples -/

/-- A labelled parameter with one integer value and the default
constructor state (note `msgs = [none]`, the constructor's unconditional
append). -/
def pInt1 : FDSParam := ⟨some ['I', 'D'], [.pint 1], 3, false, [Option.none]⟩

/-- A labelled parameter with an empty value list. -/
def pEmpty : FDSParam := ⟨some ['I', 'D'], [], 3, false, [Option.none]⟩

/-- An anonymous parameter carrying one integer value. -/
def pAnon : FDSParam := ⟨Option.none, [.pint 1], 3, false, [Option.none]⟩

/-- A namelist fixture for the importer claims. -/
def nlFix : FDSNamelist := ⟨['X', 'X'], [pInt1]⟩

theorem digitsVal_append (a b : List Nat) :
    digitsVal (a ++ b) = digitsVal a * 10 ^ b.length + digitsVal b := by
  induction b using List.reverseRecOn with
  | nil => simp [digitsVal, digitsRevVal]
  | append_singleton bs d ih =>
    simp only [digitsVal, List.reverse_append, List.reverse_cons, List.reverse_nil,
      List.nil_append, List.cons_append, digitsRevVal] at *
    rw [ih]
    simp [List.length_append, pow_succ]
    ring

theorem natChars_ne_nil (n : Nat) : natChars n ≠ [] := by
  unfold natChars
  split
  · simp
  · next h =>
    obtain ⟨m, rfl⟩ : ∃ m, n = m + 1 := ⟨n - 1, by omega⟩
    simp [natDigitsRev, natDigitsRevF]

theorem fixChars_ne_nil (p : Nat) (q : ℚ) : fixChars p q ≠ [] := by
  unfold fixChars
  intro h
  simp only [List.append_eq_nil] at h
  exact natChars_ne_nil _ (by tauto)

theorem expChars_ne_nil (p : Nat) (q : ℚ) : expChars p q ≠ [] := by
  unfold expChars
  intro h
  simp only [List.append_eq_nil] at h
  exact absurd h.2 (by simp)

theorem intPyChars_ne_nil (n : Int) : intPyChars n ≠ [] := by
  unfold intPyChars
  intro h
  simp only [List.append_eq_nil] at h
  exact natChars_ne_nil _ (by tauto)

theorem quoteChars_ne_nil (s : List Char) : quoteChars s ≠ [] := by
  unfold quoteChars
  split <;> simp

/-- The first formatted token of a non-empty batch is non-empty. -/
theorem getFormattedValues_head_ne_nil (prec : Nat) (e : Bool) (v : PyVal)
    (vs : List PyVal) (ts : List (List Char))
    (h : getFormattedValues prec e (v :: vs) = .ok ts) :
    ∃ t ts2, ts = t :: ts2 ∧ t ≠ [] := by
  cases v with
  | pfloat q =>
    simp only [getFormattedValues, mapExcept, fmtFloatElem, PyVal.toRat] at h
    cases hrest : mapExcept (fmtFloatElem prec e) vs with
    | ok rest =>
      rw [hrest] at h
      refine ⟨_, rest, ((Except.ok.injEq _ _).mp h).symm, ?_⟩
      split <;> [exact expChars_ne_nil _ _; exact fixChars_ne_nil _ _]
    | error err => rw [hrest] at h; cases h
  | pstr s =>
    simp only [getFormattedValues, mapExcept, fmtStrElem] at h
    cases hrest : mapExcept fmtStrElem vs with
    | ok rest =>
      rw [hrest] at h
      exact ⟨_, rest, ((Except.ok.injEq _ _).mp h).symm, quoteChars_ne_nil s⟩
    | error err => rw [hrest] at h; cases h
  | pbool b =>
    simp only [getFormattedValues, List.map_cons] at h
    refine ⟨_, _, ((Except.ok.injEq _ _).mp h).symm, ?_⟩
    split <;> simp
  | pint n =>
    simp only [getFormattedValues, List.map_cons] at h
    exact ⟨_, _, ((Except.ok.injEq _ _).mp h).symm, intPyChars_ne_nil n⟩

theorem joinComma_cons_ne_nil (t : List Char) (ts : List (List Char)) (h : t ≠ []) :
    joinComma (t :: ts) ≠ [] := by
  cases ts with
  | nil => simpa [joinComma]
  | cons u us => simp [joinComma, h]

/-- The eval loop raises the BFException of the first failing token. -/
theorem evalValues_first_failure (lbl : Option (List Char)) (f90c : List Char)
    (t : List Char) (post : List (List Char)) :
    ∀ pre : List (List Char), (∀ u ∈ pre, (evalToken u).isSome) → evalToken t = none →
    evalValues lbl f90c (pre ++ t :: post) = .error (.bf (errMsg t lbl f90c)) := by
  intro pre
  induction pre with
  | nil => intro _ hfail; simp [evalValues, hfail]
  | cons u us ih =>
    intro hpre hfail
    have hu := hpre u (by simp)
    obtain ⟨v, hv⟩ := Option.isSome_iff_exists.mp hu
    have := ih (fun x hx => hpre x (by simp [hx])) hfail
    simp only [List.cons_append, evalValues, hv, List.append_eq, this]

/-- String batches format to quoted tokens. -/
theorem mapExcept_str (ss : List (List Char)) :
    mapExcept fmtStrElem (ss.map PyVal.pstr) = .ok (ss.map quoteChars) := by
  induction ss with
  | nil => rfl
  | cons s rest ih => simp [mapExcept, fmtStrElem, ih]

/-! ### Digit-run scanning lemmas -/

theorem digit_ne_special (c : Char) (h : isDigitChar c = true) :
    c ≠ '-' ∧ c ≠ '+' ∧ c ≠ '.' ∧ c ≠ 'e' ∧ c ≠ 'E' ∧ c ≠ sq ∧ c ≠ dq := by
  refine ⟨?_, ?_, ?_, ?_, ?_, ?_, ?_⟩ <;>
    (intro he; rw [he] at h; exact absurd h (by decide))

/-- A token beginning with a digit or one of the sign characters is not a
boolean literal token, so `evalToken` reduces to `eval`. -/
theorem evalToken_not_bool (l : List Char) (hne : l ≠ [])
    (h : l.headI = '-' ∨ l.headI = '+' ∨ isDigitChar l.headI = true) :
    evalToken l = pyEval l := by
  obtain ⟨c, cs, rfl⟩ := List.exists_cons_of_ne_nil hne
  simp only [List.headI] at h
  have hdot : c ≠ '.' ∧ c ≠ 'T' ∧ c ≠ 'F' := by
    rcases h with h | h | h
    · subst h; refine ⟨by decide, by decide, by decide⟩
    · subst h; refine ⟨by decide, by decide, by decide⟩
    · refine ⟨?_, ?_, ?_⟩ <;> (intro he; rw [he] at h; exact absurd h (by decide))
  have hb1 : c :: cs ≠ ['.', 'T', 'R', 'U', 'E', '.'] := by
    intro he; exact hdot.1 (List.head_eq_of_cons_eq he)
  have hb2 : c :: cs ≠ ['T'] := by
    intro he; exact hdot.2.1 (List.head_eq_of_cons_eq he)
  have hb3 : c :: cs ≠ ['.', 'F', 'A', 'L', 'S', 'E', '.'] := by
    intro he; exact hdot.1 (List.head_eq_of_cons_eq he)
  have hb4 : c :: cs ≠ ['F'] := by
    intro he; exact hdot.2.2 (List.head_eq_of_cons_eq he)
  simp [evalToken, hb1, hb2, hb3, hb4]

theorem splitAtChar_append (qc : Char) : ∀ b r : List Char, qc ∉ b →
    splitAtChar qc (b ++ qc :: r) = some (b, r) := by
  intro b
  induction b with
  | nil => intro r _; simp [splitAtChar]
  | cons c cs ih =>
    intro r h
    have hc : c ≠ qc := by intro he; exact h (by simp [he])
    rw [List.cons_append, splitAtChar, if_neg (by simpa using hc),
      ih r (fun hm => h (by simp [hm]))]

theorem eCapsAux_reset (st : ECapState) (c : Char) (r : List Char)
    (h1 : isDigitChar c = false) (h2 : c ≠ '.') (h3 : ¬(c = 'e' ∨ c = 'E')) :
    eCapsAux st (c :: r) = eCapsAux ⟨0, false, 0⟩ r := by
  simp [eCapsAux, h1, h2, h3]

theorem eCapsAux_dot (st : ECapState) (r : List Char) :
    eCapsAux st ('.' :: r) = eCapsAux ⟨st.cur, true, 0⟩ r := by
  simp [eCapsAux, show isDigitChar '.' = false from by decide]

theorem evalToken_eq_pyEval (c : Char) (cs : List Char)
    (hd : c ≠ '.' ∧ c ≠ 'T' ∧ c ≠ 'F') : evalToken (c :: cs) = pyEval (c :: cs) := by
  have hb1 : c :: cs ≠ ['.', 'T', 'R', 'U', 'E', '.'] :=
    fun he => hd.1 (List.head_eq_of_cons_eq he)
  have hb2 : c :: cs ≠ ['T'] := fun he => hd.2.1 (List.head_eq_of_cons_eq he)
  have hb3 : c :: cs ≠ ['.', 'F', 'A', 'L', 'S', 'E', '.'] :=
    fun he => hd.1 (List.head_eq_of_cons_eq he)
  have hb4 : c :: cs ≠ ['F'] := fun he => hd.2.2 (List.head_eq_of_cons_eq he)
  simp [evalToken, hb1, hb2, hb3, hb4]

/-- Flushing step of the decimal scan at a non-digit: the pending run (the
end-of-input flush of the current state) is emitted and the state restarts
from the dot test. -/
theorem decRunsAux_flush_step (st : Option Nat) (c : Char) (l : List Char)
    (hd : isDigitChar c = false) :
    decRunsAux st (c :: l) =
      decRunsAux st [] ++ decRunsAux (if c = '.' then some 0 else none) l := by
  cases st with
  | none => simp [decRunsAux, hd]
  | some k =>
    cases k with
    | zero => simp [decRunsAux, hd]
    | succ j => simp [decRunsAux, hd]

/-- The decimal scan distributes over a comma boundary: the separator both
flushes the pending run and resets the state. -/
theorem decRunsAux_append_comma : ∀ (t : List Char) (st : Option Nat)
    (r : List Char),
    decRunsAux st (t ++ ',' :: r) = decRunsAux st t ++ decRunsAux none r := by
  intro t
  induction t with
  | nil =>
    intro st r
    rw [List.nil_append, decRunsAux_flush_step st ',' r (by decide),
      if_neg (by decide : ¬ (',' = '.'))]
  | cons c cs ih =>
    intro st r
    cases hdc : isDigitChar c with
    | true =>
      cases st with
      | none =>
        simp only [List.cons_append, decRunsAux, hdc, if_true]
        exact ih none r
      | some k =>
        simp only [List.cons_append, decRunsAux, hdc, if_true]
        exact ih (some (k + 1)) r
    | false =>
      rw [List.cons_append, decRunsAux_flush_step st c _ hdc,
        decRunsAux_flush_step st c cs hdc, ih _ r, List.append_assoc]

/-- `re.findall` of the decimal regex over a comma join is the
concatenation of the per-token scans. -/
theorem decRuns_joinComma : ∀ toks : List (List Char),
    decRuns (joinComma toks) = toks.flatMap decRuns := by
  intro toks
  induction toks with
  | nil => rfl
  | cons t ts ih =>
    cases ts with
    | nil => simp [joinComma, decRuns]
    | cons t2 ts2 =>
      show decRunsAux none (t ++ ',' :: joinComma (t2 :: ts2)) = _
      rw [decRunsAux_append_comma,
        show decRunsAux none (joinComma (t2 :: ts2)) =
          decRuns (joinComma (t2 :: ts2)) from rfl, ih]
      simp [decRuns]

/-- The exponent scan distributes over a comma boundary as well. -/
theorem eCapsAux_append_comma : ∀ (t : List Char) (st : ECapState)
    (r : List Char),
    eCapsAux st (t ++ ',' :: r) =
      eCapsAux st t ++ eCapsAux ⟨0, false, 0⟩ r := by
  intro t
  induction t with
  | nil =>
    intro st r
    rw [List.nil_append,
      eCapsAux_reset st ',' r (by decide) (by decide) (by decide)]
    rfl
  | cons c cs ih =>
    intro st r
    cases hdc : isDigitChar c with
    | true =>
      simp only [List.cons_append, eCapsAux, hdc, if_true]
      exact ih _ r
    | false =>
      by_cases hdot : c = '.'
      · subst hdot
        rw [List.cons_append, eCapsAux_dot, eCapsAux_dot, ih _ r]
      · by_cases he : c = 'e' ∨ c = 'E'
        · rw [List.cons_append,
            show eCapsAux st (c :: (cs ++ ',' :: r)) =
              (if st.dotted then st.prev else st.cur) ::
                eCapsAux ⟨0, false, 0⟩ (cs ++ ',' :: r) by
              simp [eCapsAux, hdc, hdot, he],
            show eCapsAux st (c :: cs) =
              (if st.dotted then st.prev else st.cur) ::
                eCapsAux ⟨0, false, 0⟩ cs by
              simp [eCapsAux, hdc, hdot, he],
            ih _ r, List.cons_append]
        · rw [List.cons_append, eCapsAux_reset st c _ hdc hdot he,
            eCapsAux_reset st c cs hdc hdot he, ih _ r]

/-- `re.findall` of the exponent regex over a comma join is the
concatenation of the per-token scans. -/
theorem eCaps_joinComma : ∀ toks : List (List Char),
    eCaps (joinComma toks) = toks.flatMap eCaps := by
  intro toks
  induction toks with
  | nil => rfl
  | cons t ts ih =>
    cases ts with
    | nil => simp [joinComma, eCaps]
    | cons t2 ts2 =>
      show eCapsAux ⟨0, false, 0⟩ (t ++ ',' :: joinComma (t2 :: ts2)) = _
      rw [eCapsAux_append_comma,
        show eCapsAux ⟨0, false, 0⟩ (joinComma (t2 :: ts2)) =
          eCaps (joinComma (t2 :: ts2)) from rfl, ih]
      simp [eCaps]

/-- The head of a numeric-shaped token is a sign or a numeric-alphabet
character. -/
theorem numericShape_head (c : Char) (cs : List Char)
    (h : numericShape (c :: cs) = true) :
    c = '-' ∨ c = '+' ∨ numTokChars c = true := by
  by_cases h1 : c = '-'
  · exact Or.inl h1
  · by_cases h2 : c = '+'
    · exact Or.inr (Or.inl h2)
    · refine Or.inr (Or.inr ?_)
      simp only [numericShape] at h
      rw [decide_eq_false h1, decide_eq_false h2] at h
      simp at h
      exact h.1

/-- A numeric-shaped token never starts with a quote character. -/
theorem numericShape_head_ne_quote (c : Char) (cs : List Char)
    (h : numericShape (c :: cs) = true) : c ≠ sq ∧ c ≠ dq := by
  rcases numericShape_head c cs h with rfl | rfl | h3
  · exact ⟨by decide, by decide⟩
  · exact ⟨by decide, by decide⟩
  · unfold numTokChars at h3
    simp only [Bool.or_eq_true, decide_eq_true_eq] at h3
    rcases h3 with ((h3 | rfl) | rfl) | rfl
    · exact ⟨(digit_ne_special c h3).2.2.2.2.2.1,
        (digit_ne_special c h3).2.2.2.2.2.2⟩
    · exact ⟨by decide, by decide⟩
    · exact ⟨by decide, by decide⟩
    · exact ⟨by decide, by decide⟩

end BFDS

/-- C7: string quoting on format — every string value is emitted wrapped
in single quotes, or in double quotes with no escaping when the value
itself contains a single quote; `Test` formats to `'Test'` and `O'Brien`
to `"O'Brien"`. -/
theorem c7_string_quoting :
    (∀ prec e (ss : List (List Char)),
      BFDS.getFormattedValues prec e (ss.map BFDS.PyVal.pstr) =
        .ok (ss.map fun t =>
          if BFDS.sq ∈ t then BFDS.dq :: (t ++ [BFDS.dq])
          else BFDS.sq :: (t ++ [BFDS.sq]))) ∧
    BFDS.getFormattedValues 3 false [.pstr "Test".data] =
      .ok [BFDS.sq :: ("Test".data ++ [BFDS.sq])] ∧
    BFDS.getFormattedValues 3 false [.pstr ("O".data ++ BFDS.sq :: "Brien".data)] =
      .ok [BFDS.dq :: (("O".data ++ BFDS.sq :: "Brien".data) ++ [BFDS.dq])] := by
  refine ⟨?_, by decide, by decide⟩
  intro prec e ss
  cases ss with
  | nil => rfl
  | cons s rest =>
    simp only [List.map_cons, BFDS.getFormattedValues]
    rw [show BFDS.PyVal.pstr s :: rest.map BFDS.PyVal.pstr =
      (s :: rest).map BFDS.PyVal.pstr by simp, BFDS.mapExcept_str]
    have hmap : ∀ l : List (List Char), l.map BFDS.quoteChars =
        l.map fun t =>
          if BFDS.sq ∈ t then BFDS.dq :: (t ++ [BFDS.dq])
          else BFDS.sq :: (t ++ [BFDS.sq]) := by
      intro l
      apply List.map_congr_left
      intro t _
      simp [BFDS.quoteChars]
    rw [hmap]
    simp [List.map_cons]

/-- C8: boolean normalization — the tokens `.TRUE.` and `T` decode to
boolean true and `.FALSE.` and `F` to boolean false, and every element of
a boolean value batch is emitted as `T` or `F` (never `.TRUE.`/`.FALSE.`). -/
theorem c8_boolean_normalization :
    BFDS.evalToken ['.', 'T', 'R', 'U', 'E', '.'] = some (.pbool true) ∧
    BFDS.evalToken ['T'] = some (.pbool true) ∧
    BFDS.evalToken ['.', 'F', 'A', 'L', 'S', 'E', '.'] = some (.pbool false) ∧
    BFDS.evalToken ['F'] = some (.pbool false) ∧
    (∀ prec e (bs : List Bool),
      BFDS.getFormattedValues prec e (bs.map BFDS.PyVal.pbool) =
        .ok (bs.map fun b => if b then ['T'] else ['F'])) := by
  refine ⟨by decide, by decide, by decide, by decide, ?_⟩
  intro prec e bs
  cases bs with
  | nil => rfl
  | cons b rest =>
    simp only [List.map_cons, BFDS.getFormattedValues]
    refine congrArg Except.ok ?_
    refine congrArg₂ List.cons (by simp [BFDS.pyTruthy]) ?_
    rw [List.map_map]
    apply List.map_congr_left
    intro x _
    simp [BFDS.pyTruthy]

/-- C9: a scanned token of the modeled class (`modeledToken`, where the
embedded eval loop is faithful to `eval`) that is not a boolean literal
and fails evaluation makes `from_fds` raise the BFException whose message
carries both the offending token text and the owning parameter label;
tokens before it are also modeled and evaluate. -/
theorem c9_malformed_literal (p : BFDS.FDSParam) (f90 t : List Char)
    (pre post : List (List Char))
    (hscan : BFDS.scanValues (BFDS.preprocess f90) = pre ++ t :: post)
    (hpre : ∀ u ∈ pre, BFDS.modeledToken u = true ∧ (BFDS.evalToken u).isSome)
    (hmod : BFDS.modeledToken t = true)
    (hfail : BFDS.evalToken t = none) :
    BFDS.FDSParam.from_fds p f90 =
      .error (.bf (BFDS.errMsg t p.fds_label (BFDS.preprocess f90))) ∧
    (∃ x y, BFDS.errMsg t p.fds_label (BFDS.preprocess f90) = x ++ t ++ y) ∧
    (∃ x y, BFDS.errMsg t p.fds_label (BFDS.preprocess f90) =
      x ++ BFDS.labelChars p.fds_label ++ y) := by
  refine ⟨?_, ?_, ?_⟩
  · simp only [BFDS.FDSParam.from_fds, hscan,
      BFDS.evalValues_first_failure p.fds_label (BFDS.preprocess f90) t post pre
        (fun u hu => (hpre u hu).2) hfail]
  · refine ⟨"Error parsing value <".data,
      "> in <".data ++ BFDS.labelChars p.fds_label ++
        '=' :: (BFDS.preprocess f90 ++ ">:".data) ++ '\n' :: "<err>".data, ?_⟩
    simp [BFDS.errMsg]
  · refine ⟨"Error parsing value <".data ++ t ++ "> in <".data,
      '=' :: (BFDS.preprocess f90 ++ ">:".data) ++ '\n' :: "<err>".data, ?_⟩
    simp [BFDS.errMsg]

/-- Witness for C9 at the malformed numeric token `1.2.3` (a tokenizer
SyntaxError under `eval`). -/
theorem c9_witness :
    (BFDS.scanValues (BFDS.preprocess "1.2.3".data) =
      [] ++ ['1', '.', '2', '.', '3'] :: []) ∧
    (∀ u ∈ ([] : List (List Char)),
      BFDS.modeledToken u = true ∧ (BFDS.evalToken u).isSome) ∧
    BFDS.modeledToken ['1', '.', '2', '.', '3'] = true ∧
    BFDS.evalToken ['1', '.', '2', '.', '3'] = none ∧
    BFDS.FDSParam.from_fds BFDS.pEmpty "1.2.3".data =
      .error (.bf (BFDS.errMsg ['1', '.', '2', '.', '3'] BFDS.pEmpty.fds_label
        (BFDS.preprocess "1.2.3".data))) :=
  ⟨by decide, by simp, by decide, by decide,
    (c9_malformed_literal BFDS.pEmpty "1.2.3".data ['1', '.', '2', '.', '3']
      [] [] (by decide) (by simp) (by decide) (by decide)).1⟩

/-- C10: on empty or whitespace-only input the scan yields no token at
all, and `from_fds` neither returns normally nor raises the documented
BFException — it raises the uncaught IndexError of `values[0]`. -/
theorem c10_empty_input (p : BFDS.FDSParam) (s : List Char)
    (h : ∀ c ∈ s, BFDS.isPySpace c) :
    BFDS.scanValues (BFDS.preprocess s) = [] ∧
    BFDS.FDSParam.from_fds p s = .error .indexError := by
  have hdrop : s.dropWhile BFDS.isPySpace = [] := by
    induction s with
    | nil => rfl
    | cons c cs ih =>
      simp only [List.dropWhile_cons, h c (by simp), if_true]
      exact ih fun x hx => h x (by simp [hx])
  have hstrip : BFDS.pyStrip s = [] := by
    simp [BFDS.pyStrip, hdrop]
  have hpp : BFDS.preprocess s = [] := by
    simp [BFDS.preprocess, hstrip, BFDS.pySplitlines, BFDS.joinSpace]
  refine ⟨by simp [hpp, BFDS.scanValues, BFDS.scanValuesF], ?_⟩
  simp [BFDS.FDSParam.from_fds, hpp, BFDS.scanValues, BFDS.scanValuesF, BFDS.evalValues]

/-- Witness for C10 at the empty input. -/
theorem c10_witness :
    (∀ c ∈ ([] : List Char), BFDS.isPySpace c) ∧
    BFDS.scanValues (BFDS.preprocess []) = [] ∧
    BFDS.FDSParam.from_fds BFDS.pEmpty [] = .error .indexError :=
  ⟨by simp, (c10_empty_input BFDS.pEmpty [] (by simp)).1,
    (c10_empty_input BFDS.pEmpty [] (by simp)).2⟩

/-- C6 counterexample: copying a parameter in its constructor-produced
state appends an extra `None` comment entry, so the copy's comment list is
not equal in content to the original's. -/
theorem c6_counterexample :
    (BFDS.FDSParam.copy BFDS.pInt1).msgs ≠ BFDS.pInt1.msgs := by decide

/-- C6 (amended): `copy` preserves label, precision, exponential flag and
value content; the comment list of the copy is the original's with one
extra `None` entry appended (the constructor's unconditional
`self.msgs.append(msg)`).  Python list aliasing has no counterpart in the
value-level model; content equality is what is stated. -/
theorem c6_copy_semantics (p : BFDS.FDSParam) (h : p.msgs ≠ []) :
    (BFDS.FDSParam.copy p).fds_label = p.fds_label ∧
    (BFDS.FDSParam.copy p).values = p.values ∧
    (BFDS.FDSParam.copy p).precision = p.precision ∧
    (BFDS.FDSParam.copy p).exponential = p.exponential ∧
    (BFDS.FDSParam.copy p).msgs = p.msgs ++ [Option.none] := by
  simp [BFDS.FDSParam.copy, BFDS.mkFDSParam, BFDS.setValueList, h]

/-- Witness for C6 at the labelled one-value parameter. -/
theorem c6_witness :
    BFDS.pInt1.msgs ≠ [] ∧
    ((BFDS.FDSParam.copy BFDS.pInt1).fds_label = BFDS.pInt1.fds_label ∧
      (BFDS.FDSParam.copy BFDS.pInt1).values = BFDS.pInt1.values ∧
      (BFDS.FDSParam.copy BFDS.pInt1).precision = BFDS.pInt1.precision ∧
      (BFDS.FDSParam.copy BFDS.pInt1).exponential = BFDS.pInt1.exponential ∧
      (BFDS.FDSParam.copy BFDS.pInt1).msgs = BFDS.pInt1.msgs ++ [Option.none]) :=
  ⟨by decide, c6_copy_semantics BFDS.pInt1 (by decide)⟩

/-- C5 counterexample: an anonymous parameter with a non-empty value list
returns the skip signal (`None`), not the formatted values, because the
source returns only inside `if self.fds_label:`. -/
theorem c5_counterexample :
    BFDS.pAnon.values ≠ [] ∧ BFDS.pAnon.fds_label = Option.none ∧
    BFDS.FDSParam.to_fds BFDS.pAnon = .ok Option.none := by decide

/-- C5 (amended): with a (truthy) label and non-empty values `to_fds`
returns `LABEL=` followed by the comma-joined non-empty token text; with a
label and no values it returns the bare label; with no label it returns
the skip signal regardless of the values. -/
theorem c5_to_fds_cases (p : BFDS.FDSParam) (ts : List (List Char))
    (hts : BFDS.getFormattedValues p.precision p.exponential p.values = .ok ts) :
    (p.fds_label = Option.none → BFDS.FDSParam.to_fds p = .ok Option.none) ∧
    (∀ l, p.fds_label = some l → l ≠ [] → p.values = [] →
      BFDS.FDSParam.to_fds p = .ok (some l)) ∧
    (∀ l, p.fds_label = some l → l ≠ [] → p.values ≠ [] →
      BFDS.joinComma ts ≠ [] ∧
      BFDS.FDSParam.to_fds p = .ok (some (l ++ '=' :: BFDS.joinComma ts))) := by
  refine ⟨?_, ?_, ?_⟩
  · intro hl
    simp [BFDS.FDSParam.to_fds, hts, hl, bind, Except.bind, pure, Except.pure]
  · intro l hl hlne hv
    have hts0 : ts = [] := by
      rw [hv] at hts
      have : BFDS.getFormattedValues p.precision p.exponential [] =
        Except.ok ([] : List (List Char)) := rfl
      rw [this] at hts
      exact ((Except.ok.injEq _ _).mp hts).symm
    rw [hts0] at hts
    simp [BFDS.FDSParam.to_fds, hts, hl, hlne, bind, Except.bind, pure, Except.pure,
      BFDS.joinComma]
  · intro l hl hlne hv
    obtain ⟨v, vs, hvv⟩ : ∃ v vs, p.values = v :: vs := by
      cases hvals : p.values with
      | nil => exact absurd hvals hv
      | cons v vs => exact ⟨v, vs, rfl⟩
    obtain ⟨t, ts2, hts2, htne⟩ :=
      BFDS.getFormattedValues_head_ne_nil p.precision p.exponential v vs ts
        (hvv ▸ hts)
    have hjoin : BFDS.joinComma ts ≠ [] := by
      rw [hts2]; exact BFDS.joinComma_cons_ne_nil t ts2 htne
    refine ⟨hjoin, ?_⟩
    simp [BFDS.FDSParam.to_fds, hts, hl, hlne, hjoin, bind, Except.bind, pure,
      Except.pure]

/-- Witness for C5 at the labelled one-value parameter. -/
theorem c5_witness :
    BFDS.getFormattedValues BFDS.pInt1.precision BFDS.pInt1.exponential
      BFDS.pInt1.values = .ok [['1']] ∧
    (∀ l, BFDS.pInt1.fds_label = some l → l ≠ [] → BFDS.pInt1.values ≠ [] →
      BFDS.joinComma [['1']] ≠ [] ∧
      BFDS.FDSParam.to_fds BFDS.pInt1 = .ok (some (l ++ '=' :: BFDS.joinComma [['1']]))) :=
  ⟨by decide, (c5_to_fds_cases BFDS.pInt1 [['1']] (by decide)).2.2⟩

/-- C3 counterexample: a matching handler class of an unhandled Blender
type makes the importer raise the AssertionError and write nothing to free
text, even though the attempt oracle would signal not-imported — the
record is not preserved. -/
theorem c3_counterexample :
    BFDS.importFdsNamelist (fun _ => some ⟨.other⟩) (fun _ => .notImported) []
      BFDS.nlFix = .error "Unhandled bf_namelist".data := by decide

/-- C3 (amended): when no handler class matches the namelist label, or the
matching handler targets a supported Blender type (Object, Scene or
Material) and its attempt signals not-imported, the importer appends the
namelist's full rendering plus a newline to the free-text channel; a
matching handler of any other type instead raises an assertion error
before any attempt is made. -/
theorem c3_free_text_fallback (lookup : List Char → Option BFDS.BFNamelistCls)
    (attempt : BFDS.BpyType → BFDS.Attempt) (ft : List (List Char))
    (nl : BFDS.FDSNamelist)
    (h : lookup nl.fds_label = Option.none ∨
      ∃ cls, lookup nl.fds_label = some cls ∧ cls.bpy_type ≠ .other ∧
        attempt cls.bpy_type = .notImported) :
    BFDS.importFdsNamelist lookup attempt ft nl =
      .ok (ft ++ [BFDS.FDSNamelist.to_fds nl ++ ['\n']]) := by
  rcases h with h | ⟨cls, hcls, hty, hatt⟩
  · simp [BFDS.importFdsNamelist, h]
  · cases hbty : cls.bpy_type with
    | object => simp [BFDS.importFdsNamelist, hcls, hbty, hbty ▸ hatt]
    | scene => simp [BFDS.importFdsNamelist, hcls, hbty, hbty ▸ hatt]
    | material => simp [BFDS.importFdsNamelist, hcls, hbty, hbty ▸ hatt]
    | other => exact absurd hbty hty

/-- Witness for C3: no handler matches, the record goes to free text. -/
theorem c3_witness :
    ((fun _ : List Char => (Option.none : Option BFDS.BFNamelistCls))
        BFDS.nlFix.fds_label = Option.none ∨
      ∃ cls, (fun _ : List Char => (Option.none : Option BFDS.BFNamelistCls))
          BFDS.nlFix.fds_label = some cls ∧ cls.bpy_type ≠ .other ∧
        (fun _ : BFDS.BpyType => BFDS.Attempt.notImported) cls.bpy_type =
          .notImported) ∧
    BFDS.importFdsNamelist (fun _ => Option.none)
      (fun _ => BFDS.Attempt.notImported) [] BFDS.nlFix =
      .ok ([] ++ [BFDS.FDSNamelist.to_fds BFDS.nlFix ++ ['\n']]) :=
  ⟨Or.inl rfl, c3_free_text_fallback (fun _ => Option.none)
    (fun _ => BFDS.Attempt.notImported) [] BFDS.nlFix (Or.inl rfl)⟩

/-- C4 counterexample: the non-boolean numeric-shaped token `1.2.3` fails
`eval` (a tokenizer SyntaxError: two numbers in a row), and instead of
the claimed quoted-or-unquoted string fallback `from_fds` raises the
BFException — a non-boolean, non-numeric token is an error, not a
string. -/
theorem c4_counterexample :
    BFDS.modeledToken ['1', '.', '2', '.', '3'] = true ∧
    BFDS.evalToken ['1', '.', '2', '.', '3'] = none ∧
    BFDS.FDSParam.from_fds BFDS.pEmpty ['1', '.', '2', '.', '3'] =
      .error (.bf (BFDS.errMsg ['1', '.', '2', '.', '3'] (some ['I', 'D'])
        ['1', '.', '2', '.', '3'])) := by
  decide

/-- C4 (amended): per-token literal classification over the modeled token
class — `.TRUE.`/`T` decode to boolean true and `.FALSE.`/`F` to boolean
false before anything else; a terminated quoted token with an
escape-free body (no backslash, no raw line break) decodes to that body
with the quotes stripped; a non-boolean numeric-shaped token goes to
numeric literal evaluation, whose failure is an error — there is no
unquoted-string fallback. -/
theorem c4_literal_classification :
    (∀ t : List Char, t = ['.', 'T', 'R', 'U', 'E', '.'] ∨ t = ['T'] →
      BFDS.evalToken t = some (.pbool true)) ∧
    (∀ t : List Char, t = ['.', 'F', 'A', 'L', 'S', 'E', '.'] ∨ t = ['F'] →
      BFDS.evalToken t = some (.pbool false)) ∧
    (∀ s : List Char, BFDS.sq ∉ s → '\x5c' ∉ s →
      (∀ x ∈ s, BFDS.isLineBreak x = false) →
      BFDS.evalToken (BFDS.sq :: (s ++ [BFDS.sq])) = some (.pstr s)) ∧
    (∀ s : List Char, BFDS.dq ∉ s → '\x5c' ∉ s →
      (∀ x ∈ s, BFDS.isLineBreak x = false) →
      BFDS.evalToken (BFDS.dq :: (s ++ [BFDS.dq])) = some (.pstr s)) ∧
    (∀ (c : Char) (cs : List Char), BFDS.numericShape (c :: cs) = true →
      c :: cs ≠ ['.', '.', '.'] →
      c :: cs ≠ ['.', 'T', 'R', 'U', 'E', '.'] → c :: cs ≠ ['T'] →
      c :: cs ≠ ['.', 'F', 'A', 'L', 'S', 'E', '.'] → c :: cs ≠ ['F'] →
      BFDS.evalToken (c :: cs) = BFDS.parseNumLit (c :: cs)) := by
  refine ⟨?_, ?_, ?_, ?_, ?_⟩
  · intro t h
    rcases h with rfl | rfl <;> decide
  · intro t h
    rcases h with rfl | rfl <;> decide
  · intro s hs hbs hlb
    rw [BFDS.evalToken_eq_pyEval BFDS.sq _ ⟨by decide, by decide, by decide⟩]
    simp only [BFDS.pyEval,
      if_pos (show BFDS.sq = BFDS.sq ∨ BFDS.sq = BFDS.dq from Or.inl rfl)]
    rw [show s ++ [BFDS.sq] = s ++ BFDS.sq :: [] from rfl,
      BFDS.splitAtChar_append BFDS.sq s [] hs]
    simp
  · intro s hs hbs hlb
    rw [BFDS.evalToken_eq_pyEval BFDS.dq _ ⟨by decide, by decide, by decide⟩]
    simp only [BFDS.pyEval,
      if_pos (show BFDS.dq = BFDS.sq ∨ BFDS.dq = BFDS.dq from Or.inr rfl)]
    rw [show s ++ [BFDS.dq] = s ++ BFDS.dq :: [] from rfl,
      BFDS.splitAtChar_append BFDS.dq s [] hs]
    simp
  · intro c cs hshape hell h1 h2 h3 h4
    obtain ⟨hsq, hdq⟩ := BFDS.numericShape_head_ne_quote c cs hshape
    simp [BFDS.evalToken, h1, h2, h3, h4, BFDS.pyEval, hsq, hdq]

/-- Witness for C4 at each classification arm. -/
theorem c4_witness :
    BFDS.evalToken ['T'] = some (.pbool true) ∧
    BFDS.evalToken ['F'] = some (.pbool false) ∧
    BFDS.evalToken (BFDS.sq :: (['a'] ++ [BFDS.sq])) = some (.pstr ['a']) ∧
    BFDS.evalToken (BFDS.dq :: (['b'] ++ [BFDS.dq])) = some (.pstr ['b']) ∧
    BFDS.evalToken ['1', '.', '5'] = BFDS.parseNumLit ['1', '.', '5'] :=
  ⟨c4_literal_classification.1 ['T'] (Or.inr rfl),
    c4_literal_classification.2.1 ['F'] (Or.inr rfl),
    c4_literal_classification.2.2.1 ['a'] (by decide) (by decide) (by decide),
    c4_literal_classification.2.2.2.1 ['b'] (by decide) (by decide) (by decide),
    c4_literal_classification.2.2.2.2 '1' ['.', '5'] (by decide) (by decide)
      (by decide) (by decide) (by decide) (by decide)⟩

/-- C2 counterexample: for the token `1E1` the decimal scan finds no
digits after a decimal point, yet the inferred precision is 1, not the
0 the claim's formula (max decimal digits, plus max mantissa integer
digits minus one) yields — the decimal base defaults to 1 when the
decimal scan is empty. -/
theorem c2_counterexample :
    BFDS.FDSParam.from_fds BFDS.pEmpty ['1', 'E', '1'] =
      .ok { BFDS.pEmpty with
            values := [.pfloat (BFDS.mkFloatVal 1 ['1'] [] 1)]
            precision := 1
            exponential := true } ∧
    BFDS.mkFloatVal 1 ['1'] [] 1 = 10 ∧
    BFDS.decRuns ['1', 'E', '1'] = [] ∧
    BFDS.eCaps ['1', 'E', '1'] = [1] := by
  have hc1 : BFDS.charsVal ['1'] = 1 := by decide
  have hc0 : BFDS.charsVal [] = 0 := by decide
  refine ⟨rfl, ?_, by decide, by decide⟩
  rw [BFDS.mkFloatVal, hc1, hc0]
  norm_num

/-- C2 (amended): for a batch of modeled tokens (comma-joined,
preprocessing-stable, scan-faithful) whose evaluation succeeds with a
float first value, the inferred precision is the maximum decimal-run
length across the tokens when any exists and defaults to 1 (not 0)
otherwise; when some token yields an exponent-scan capture the
exponential flag is set and the maximum capture length minus one is
added; otherwise both fields of the parameter keep their values.  The
whole-string scans decompose into per-token scans. -/
theorem c2_precision_inference (p : BFDS.FDSParam) (toks : List (List Char))
    (v0 : BFDS.PyVal) (vs : List BFDS.PyVal)
    (hpre : BFDS.preprocess (BFDS.joinComma toks) = BFDS.joinComma toks)
    (hscan : BFDS.scanValues (BFDS.joinComma toks) = toks)
    (htok : ∀ t ∈ toks, BFDS.modeledToken t = true)
    (heval : BFDS.evalValues p.fds_label (BFDS.joinComma toks) toks =
      .ok (v0 :: vs))
    (hfloat : v0.isFloat = true) :
    BFDS.FDSParam.from_fds p (BFDS.joinComma toks) = .ok
      { p with
        values := v0 :: vs
        precision :=
          if toks.flatMap BFDS.eCaps = [] then
            (if toks.flatMap BFDS.decRuns = [] then 1
              else BFDS.maxList (toks.flatMap BFDS.decRuns))
          else
            (if toks.flatMap BFDS.decRuns = [] then 1
              else BFDS.maxList (toks.flatMap BFDS.decRuns)) +
              BFDS.maxList (toks.flatMap BFDS.eCaps) - 1
        exponential :=
          if toks.flatMap BFDS.eCaps = [] then p.exponential else true } := by
  have hdec := BFDS.decRuns_joinComma toks
  have hcaps := BFDS.eCaps_joinComma toks
  by_cases hc : toks.flatMap BFDS.eCaps = [] <;>
    by_cases hd : toks.flatMap BFDS.decRuns = [] <;>
    simp [BFDS.FDSParam.from_fds, hpre, hscan, heval, hfloat, hdec, hcaps,
      hc, hd]

/-- Witness for C2 at the single-token batch `1.5`. -/
theorem c2_witness :
    BFDS.FDSParam.from_fds BFDS.pEmpty (BFDS.joinComma [['1', '.', '5']]) =
      .ok { BFDS.pEmpty with
            values := [BFDS.PyVal.pfloat (BFDS.mkFloatVal 1 ['1'] ['5'] 0)]
            precision := 1
            exponential := false } := by
  rw [c2_precision_inference BFDS.pEmpty [['1', '.', '5']]
    (BFDS.PyVal.pfloat (BFDS.mkFloatVal 1 ['1'] ['5'] 0)) [] (by decide)
    (by decide) (by decide) rfl rfl]
  have h1 : ([['1', '.', '5']] : List (List Char)).flatMap BFDS.decRuns =
      [1] := by decide
  have h2 : ([['1', '.', '5']] : List (List Char)).flatMap BFDS.eCaps =
      [] := by decide
  rw [h1, h2]
  simp [BFDS.maxList, BFDS.pEmpty]

